import Mathlib

/-!
Verification of the multi-provider LLM client wrapper: the provider
registry/dispatcher (`APIManager`), the provider capability contract
(`BaseProvider` and its subclasses), and the newline-delimited-JSON
streaming decoder of `OllamaProvider.streamResponse`.

Strings are modelled as `List Char`; bytes as `Nat`; JavaScript values
produced by `JSON.parse` / `response.json()` as the inductive `Json`
(`undefined` is `Option.none` where member access can miss).  Fallible
operations return `Except (List Char) _` carrying the error message.
-/

/-- Convert a Lean string literal to the `List Char` representation used
throughout the development. -/
def strL (s : String) : List Char := s.data

/-- The opening brace character. -/
def lbraceC : Char := Char.ofNat 123

/-- The closing brace character. -/
def rbraceC : Char := Char.ofNat 125

/-- The double-quote character. -/
def quoteC : Char := Char.ofNat 34

/-- The backslash character. -/
def bslashC : Char := Char.ofNat 92

/-- JavaScript values as produced by `JSON.parse`.  Numbers keep their
lexical components (sign, integer digits, fraction digits, exponent);
only zero-ness of the mantissa is ever observed (JS truthiness). -/
inductive Json where
  | null : Json
  | bool (b : Bool) : Json
  | num (neg : Bool) (ip : Nat) (fp : List Nat) (ex : Int) : Json
  | str (s : List Char) : Json
  | arr (elems : List Json) : Json
  | obj (fields : List (List Char × Json)) : Json

/-- Property lookup in a JS object: later duplicate keys overwrite
earlier ones, so the last binding wins. -/
def getFieldList (fs : List (List Char × Json)) (k : List Char) : Option Json :=
  fs.foldl (fun acc e => if e.1 = k then some e.2 else acc) none

/-- Member access `j.k` on a parsed JSON value: only objects have
own properties; everything else yields `undefined` (`none`). -/
def getField (j : Json) (k : List Char) : Option Json :=
  match j with
  | Json.obj fs => getFieldList fs k
  | _ => none

/-- JavaScript truthiness of a parsed JSON value. -/
def truthy : Json → Bool
  | Json.null => false
  | Json.bool b => b
  | Json.num _ ip fp _ => decide (ip ≠ 0) || fp.any (fun d => decide (d ≠ 0))
  | Json.str s => decide (s ≠ [])
  | Json.arr _ => true
  | Json.obj _ => true

/-- Truthiness of a possibly-`undefined` value (`undefined` is falsy). -/
def truthyOpt : Option Json → Bool
  | none => false
  | some v => truthy v

/-- The whitespace characters permitted by the JSON grammar. -/
def isJsonWs (c : Char) : Bool :=
  c = ' ' || c = Char.ofNat 9 || c = Char.ofNat 10 || c = Char.ofNat 13

/-- Hexadecimal digit value, for `\uXXXX` string escapes. -/
def hexVal (c : Char) : Option Nat :=
  if c.isDigit then some (c.toNat - 48)
  else if 'a' ≤ c ∧ c ≤ 'f' then some (c.toNat - 87)
  else if 'A' ≤ c ∧ c ≤ 'F' then some (c.toNat - 55)
  else none

/-- Parse the body of a JSON string after the opening quote; returns the
decoded characters and the input after the closing quote. -/
def parseStringBody : List Char → Option (List Char × List Char)
  | [] => none
  | c :: cs =>
    if c = quoteC then some ([], cs)
    else if c = bslashC then
      match cs with
      | [] => none
      | e :: cs2 =>
        if e = quoteC then (parseStringBody cs2).map (fun p => (quoteC :: p.1, p.2))
        else if e = bslashC then (parseStringBody cs2).map (fun p => (bslashC :: p.1, p.2))
        else if e = '/' then (parseStringBody cs2).map (fun p => ('/' :: p.1, p.2))
        else if e = 'b' then (parseStringBody cs2).map (fun p => (Char.ofNat 8 :: p.1, p.2))
        else if e = 'f' then (parseStringBody cs2).map (fun p => (Char.ofNat 12 :: p.1, p.2))
        else if e = 'n' then (parseStringBody cs2).map (fun p => (Char.ofNat 10 :: p.1, p.2))
        else if e = 'r' then (parseStringBody cs2).map (fun p => (Char.ofNat 13 :: p.1, p.2))
        else if e = 't' then (parseStringBody cs2).map (fun p => (Char.ofNat 9 :: p.1, p.2))
        else if e = 'u' then
          match cs2 with
          | h1 :: h2 :: h3 :: h4 :: cs3 =>
            match hexVal h1, hexVal h2, hexVal h3, hexVal h4 with
            | some a, some b2, some c2, some d2 =>
              (parseStringBody cs3).map
                (fun p => (Char.ofNat (a * 4096 + b2 * 256 + c2 * 16 + d2) :: p.1, p.2))
            | _, _, _, _ => none
          | _ => none
        else none
    else if c.toNat < 32 then none
    else (parseStringBody cs).map (fun p => (c :: p.1, p.2))

/-- Decimal digit characters to the natural number they denote. -/
def digitsToNat (ds : List Char) : Nat :=
  ds.foldl (fun a c => a * 10 + (c.toNat - 48)) 0

/-- Parse a JSON number (sign, integer part without leading zeros,
optional fraction, optional exponent). -/
def parseNumber (cs : List Char) : Option (Json × List Char) :=
  let signSplit : Bool × List Char :=
    match cs with
    | c :: r => if c = '-' then (true, r) else (false, cs)
    | [] => (false, [])
  let neg := signSplit.1
  let cs1 := signSplit.2
  match cs1 with
  | [] => none
  | c :: _ =>
    if ¬ c.isDigit then none
    else
      let ipds := cs1.takeWhile Char.isDigit
      let cs2 := cs1.dropWhile Char.isDigit
      if 1 < ipds.length ∧ ipds.head? = some '0' then none
      else
        let fracSplit : Option (List Nat) × List Char :=
          match cs2 with
          | d :: r =>
            if d = '.' then
              match r.takeWhile Char.isDigit with
              | [] => (none, cs2)
              | fds => (some (fds.map (fun x => x.toNat - 48)), r.dropWhile Char.isDigit)
            else (some [], cs2)
          | [] => (some [], cs2)
        match fracSplit.1 with
        | none => none
        | some fp =>
          let cs3 := fracSplit.2
          match cs3 with
          | e :: r =>
            if e = 'e' ∨ e = 'E' then
              let expSplit : Bool × List Char :=
                match r with
                | s :: r2 =>
                  if s = '-' then (true, r2) else if s = '+' then (false, r2) else (false, r)
                | [] => (false, [])
              match expSplit.2.takeWhile Char.isDigit with
              | [] => none
              | eds =>
                let ev : Int := Int.ofNat (digitsToNat eds)
                some (Json.num neg (digitsToNat ipds) fp (if expSplit.1 then -ev else ev),
                  expSplit.2.dropWhile Char.isDigit)
            else some (Json.num neg (digitsToNat ipds) fp 0, cs3)
          | [] => some (Json.num neg (digitsToNat ipds) fp 0, cs3)

/-- Parsing mode for the single fuel-indexed descent of `parseStep`:
a value, the fields of an object, or the elements of an array. -/
inductive PMode where
  | val : PMode
  | objFields (acc : List (List Char × Json)) : PMode
  | arrElems (acc : List Json) : PMode

/-- Recursive-descent JSON parser (model of `JSON.parse`), driven by
fuel so that it is structurally recursive and kernel-computable. -/
def parseStep : Nat → PMode → List Char → Option (Json × List Char)
  | 0, _, _ => none
  | fuel + 1, PMode.val, input =>
    match input.dropWhile isJsonWs with
    | [] => none
    | c :: rest =>
      if c = lbraceC then
        match rest.dropWhile isJsonWs with
        | d :: r2 =>
          if d = rbraceC then some (Json.obj [], r2)
          else parseStep fuel (PMode.objFields []) rest
        | [] => none
      else if c = '[' then
        match rest.dropWhile isJsonWs with
        | d :: r2 =>
          if d = ']' then some (Json.arr [], r2)
          else parseStep fuel (PMode.arrElems []) rest
        | [] => none
      else if c = quoteC then
        (parseStringBody rest).map (fun p => (Json.str p.1, p.2))
      else if c = 't' then
        match rest with
        | 'r' :: 'u' :: 'e' :: r => some (Json.bool true, r)
        | _ => none
      else if c = 'f' then
        match rest with
        | 'a' :: 'l' :: 's' :: 'e' :: r => some (Json.bool false, r)
        | _ => none
      else if c = 'n' then
        match rest with
        | 'u' :: 'l' :: 'l' :: r => some (Json.null, r)
        | _ => none
      else parseNumber (c :: rest)
  | fuel + 1, PMode.objFields acc, input =>
    match input.dropWhile isJsonWs with
    | c :: rest =>
      if c = quoteC then
        match parseStringBody rest with
        | some kp =>
          match kp.2.dropWhile isJsonWs with
          | ':' :: r2 =>
            match parseStep fuel PMode.val r2 with
            | some vp =>
              match vp.2.dropWhile isJsonWs with
              | ',' :: r4 => parseStep fuel (PMode.objFields (acc ++ [(kp.1, vp.1)])) r4
              | d :: r4 =>
                if d = rbraceC then some (Json.obj (acc ++ [(kp.1, vp.1)]), r4) else none
              | [] => none
            | none => none
          | _ => none
        | none => none
      else none
    | [] => none
  | fuel + 1, PMode.arrElems acc, input =>
    match parseStep fuel PMode.val input with
    | some vp =>
      match vp.2.dropWhile isJsonWs with
      | ',' :: r2 => parseStep fuel (PMode.arrElems (acc ++ [vp.1])) r2
      | d :: r2 => if d = ']' then some (Json.arr (acc ++ [vp.1]), r2) else none
      | [] => none
    | none => none

/-- Model of `JSON.parse(line)`: the whole line must be one JSON value,
possibly surrounded by whitespace; otherwise the parse throws (`none`). -/
def parseJsonLine (l : List Char) : Option Json :=
  match parseStep (l.length + 1) PMode.val l with
  | some p => if (p.2.dropWhile isJsonWs).isEmpty then some p.1 else none
  | none => none

/-- Split text on the newline character, as `chunk.split(String.fromCharCode(10))`
does in the source: `n + 1` pieces for `n` newlines, including empty pieces. -/
def splitNl : List Char → List (List Char)
  | [] => [[]]
  | c :: cs =>
    if c = Char.ofNat 10 then [] :: splitNl cs
    else
      match splitNl cs with
      | l :: ls => (c :: l) :: ls
      | [] => [[c]]

/-- A piece is blank when `line.trim()` is empty: all characters are
JS whitespace. -/
def isBlank (l : List Char) : Bool :=
  l.all (fun c =>
    c = ' ' || c = Char.ofNat 9 || c = Char.ofNat 10 || c = Char.ofNat 13 ||
    c = Char.ofNat 11 || c = Char.ofNat 12)

/-- The non-blank lines of one decoded read:
`chunk.split(newline).filter(line => line.trim())`. -/
def linesOfRead (r : List Char) : List (List Char) :=
  (splitNl r).filter (fun l => !isBlank l)

/-- One chunk delivered to the sink `onChunk`: the JS value passed as
text, and the final flag. -/
abbrev Chunk := Json × Bool

/-- Chunks emitted for one parsed line by `if (data.response) onChunk(data.response, false)`. -/
def respChunks (j : Json) : List Chunk :=
  match getField j (strL "response") with
  | some v => if truthy v then [(v, false)] else []
  | none => []

/-- Whether a line, per `JSON.parse` and JS truthiness, carries the
completion flag `data.done`. -/
def lineDone (l : List Char) : Bool :=
  match parseJsonLine l with
  | some j => truthyOpt (getField j (strL "done"))
  | none => false

/-- The per-line loop of `OllamaProvider.streamResponse`: parse each
line, skip parse failures, emit `(data.response, false)` when truthy,
and on a truthy `data.done` emit the terminal chunk and stop (second
component reports whether the loop returned early). -/
def processLines : List (List Char) → List Chunk × Bool
  | [] => ([], false)
  | l :: ls =>
    match parseJsonLine l with
    | none => processLines ls
    | some j =>
      if truthyOpt (getField j (strL "done")) then
        (respChunks j ++ [(Json.str [], true)], true)
      else
        (respChunks j ++ (processLines ls).1, (processLines ls).2)

/-- The read loop of `OllamaProvider.streamResponse` over already-decoded
text reads: process each read's lines, returning early once a read hit
the completion flag. -/
def streamDecode : List (List Char) → List Chunk
  | [] => []
  | r :: rs =>
    if (processLines (linesOfRead r)).2 then (processLines (linesOfRead r)).1
    else (processLines (linesOfRead r)).1 ++ streamDecode rs

/-- Whether any line of any read carries a truthy completion flag. -/
def anyDone (reads : List (List Char)) : Bool :=
  ((reads.map linesOfRead).flatten).any lineDone

/-- Whether a byte is a UTF-8 continuation byte (`0x80`–`0xBF`). -/
def isContByte (b : Nat) : Bool := decide (0x80 ≤ b) && decide (b < 0xC0)

/-- Valid range of the first continuation byte of a three-byte sequence
(restricted after `0xE0` and `0xED` to exclude overlongs and surrogates). -/
def cont3 (b c : Nat) : Bool :=
  if b = 0xE0 then decide (0xA0 ≤ c) && decide (c < 0xC0)
  else if b = 0xED then decide (0x80 ≤ c) && decide (c < 0xA0)
  else isContByte c

/-- Valid range of the first continuation byte of a four-byte sequence
(restricted after `0xF0` and `0xF4` to exclude overlongs and values
beyond `U+10FFFF`). -/
def cont4 (b c : Nat) : Bool :=
  if b = 0xF0 then decide (0x90 ≤ c) && decide (c < 0xC0)
  else if b = 0xF4 then decide (0x80 ≤ c) && decide (c < 0x90)
  else isContByte c

/-- One step of the WHATWG UTF-8 decoder: given a lead byte and the
bytes after it, produce the decoded code point (`none` for one
replacement character) and the remaining bytes, consuming the maximal
valid subpart on failure. -/
def utf8Step (b : Nat) (rest : List Nat) : Option Nat × List Nat :=
  if b < 0x80 then (some b, rest)
  else if b < 0xC2 then (none, rest)
  else if b < 0xE0 then
    match rest with
    | [] => (none, [])
    | c :: r =>
      if isContByte c then (some ((b - 0xC0) * 0x40 + (c - 0x80)), r)
      else (none, c :: r)
  else if b < 0xF0 then
    match rest with
    | [] => (none, [])
    | [c] => if cont3 b c then (none, []) else (none, [c])
    | c :: d :: r =>
      if cont3 b c then
        if isContByte d then
          (some ((b - 0xE0) * 0x1000 + (c - 0x80) * 0x40 + (d - 0x80)), r)
        else (none, d :: r)
      else (none, c :: d :: r)
  else if b < 0xF5 then
    match rest with
    | [] => (none, [])
    | [c] => if cont4 b c then (none, []) else (none, [c])
    | [c, d] =>
      if cont4 b c then
        if isContByte d then (none, []) else (none, [d])
      else (none, [c, d])
    | c :: d :: e :: r =>
      if cont4 b c then
        if isContByte d then
          if isContByte e then
            (some ((b - 0xF0) * 0x40000 + (c - 0x80) * 0x1000 + (d - 0x80) * 0x40 + (e - 0x80)), r)
          else (none, e :: r)
        else (none, d :: e :: r)
      else (none, c :: d :: e :: r)
  else (none, rest)

/-- Fuel-driven loop of the UTF-8 decoder (fuel at least the byte count
is always sufficient, since every step consumes the lead byte). -/
def decodeUtf8Go : Nat → List Nat → List Nat
  | _, [] => []
  | 0, _ :: _ => []
  | fuel + 1, b :: rest =>
    (utf8Step b rest).1.getD 0xFFFD :: decodeUtf8Go fuel (utf8Step b rest).2

/-- Model of one `TextDecoder().decode(value)` call: decode a byte
sequence to the code points of the resulting string, with U+FFFD
replacement for invalid or truncated sequences. -/
def decodeUtf8 (bs : List Nat) : List Nat := decodeUtf8Go bs.length bs

/-- Fuel-driven loop deciding whether a byte sequence consists solely of
complete, valid UTF-8 sequences. -/
def wfGo : Nat → List Nat → Bool
  | _, [] => true
  | 0, _ :: _ => false
  | fuel + 1, b :: rest =>
    match utf8Step b rest with
    | (some _, r) => wfGo fuel r
    | (none, _) => false

/-- Whether a byte sequence is well-formed UTF-8 (no invalid byte and no
multi-byte sequence truncated at the end). -/
def wellFormedUtf8 (bs : List Nat) : Bool := wfGo bs.length bs

/-- The byte-to-text stage applied to one read of the streaming body:
decode independently (the source constructs a fresh decode of each
`value`, with no carried state) and view the code points as characters. -/
def decodeRead (bs : List Nat) : List Char := (decodeUtf8 bs).map Char.ofNat

/-- A streaming fetch outcome: HTTP status information and the byte
reads successively delivered by `response.body.getReader()`. -/
structure StreamFetch where
  ok : Bool
  status : Nat
  reads : List (List Nat)

/-- A non-streaming fetch outcome: HTTP status information and the
result of `response.json()` (`Except.error` when the body fails to
parse, carrying the message of the exception). -/
structure JsResponse where
  ok : Bool
  status : Nat
  body : Except (List Char) Json

/-- JS `a || b` on possibly-undefined values: the left operand when
truthy, otherwise the right operand. -/
def jsOr (a b : Option Json) : Option Json :=
  match a with
  | some v => if truthy v then some v else b
  | none => b

/-- A normalized model descriptor as built by `BaseProvider.formatModel`:
each field holds the JS value assigned there (`none` for `undefined`). -/
structure ModelDescriptor where
  id : Option Json
  name : Option Json
  size : Option Json
  modified : Option Json
  provider : List Char

/-- `BaseProvider.formatModel`: normalize one raw model object. -/
def formatModel (providerName : List Char) (modelData : Json) : ModelDescriptor :=
  { id := jsOr (getField modelData (strL "name")) (getField modelData (strL "id"))
    name := jsOr (getField modelData (strL "name")) (getField modelData (strL "id"))
    size := jsOr (getField modelData (strL "size")) (some (Json.str (strL "Unknown")))
    modified := jsOr (getField modelData (strL "modified_at")) (getField modelData (strL "created"))
    provider := providerName }

/-- `(v || []).map(model => this.formatModel(model))`: map over the
array; a non-array value would make `.map` throw, which the enclosing
`catch` turns into the empty list. -/
def mapModelsOr (v : Option Json) (providerName : List Char) : List ModelDescriptor :=
  match v with
  | some (Json.arr xs) => xs.map (formatModel providerName)
  | _ => []

/-- `OllamaProvider.getAvailableModels`: on network error or non-2xx
status or unparseable body, the catch returns `[]`; otherwise map
`data.models || []` through `formatModel`. -/
def OllamaProvider.getAvailableModels (r : Except (List Char) JsResponse) :
    List ModelDescriptor :=
  match r with
  | Except.error _ => []
  | Except.ok resp =>
    if !resp.ok then []
    else
      match resp.body with
      | Except.error _ => []
      | Except.ok data =>
        mapModelsOr (jsOr (getField data (strL "models")) (some (Json.arr []))) (strL "ollama")

/-- `OpenAIProvider.getAvailableModels`: the HTTP status is never
inspected; on network error or unparseable body the catch returns `[]`,
otherwise map `data.data || []` through `formatModel`. -/
def OpenAIProvider.getAvailableModels (r : Except (List Char) JsResponse) :
    List ModelDescriptor :=
  match r with
  | Except.error _ => []
  | Except.ok resp =>
    match resp.body with
    | Except.error _ => []
    | Except.ok data =>
      mapModelsOr (jsOr (getField data (strL "data")) (some (Json.arr []))) (strL "openai")

/-- `OllamaProvider.generateResponse`: non-2xx throws `HTTP <status>`,
any thrown cause is rewrapped as `Ollama generation failed: <message>`;
on success the value of `data.response` is returned. -/
def OllamaProvider.generateResponse (r : Except (List Char) JsResponse) :
    Except (List Char) (Option Json) :=
  match r with
  | Except.error m => Except.error (strL "Ollama generation failed: " ++ m)
  | Except.ok resp =>
    if !resp.ok then
      Except.error (strL "Ollama generation failed: HTTP " ++ Nat.toDigits 10 resp.status)
    else
      match resp.body with
      | Except.error m => Except.error (strL "Ollama generation failed: " ++ m)
      | Except.ok data => Except.ok (getField data (strL "response"))

/-- JS member access `v[k]` where a thrown `TypeError` is an error
result: `undefined` and `null` bases throw; objects look the key up;
arrays answer numeric indices; other primitives yield `undefined`.
(The exact platform `TypeError` message is modelled by a constant.) -/
def jsMember (v : Option Json) (k : List Char) : Except (List Char) (Option Json) :=
  match v with
  | none => Except.error (strL "TypeError: Cannot read properties of undefined")
  | some Json.null => Except.error (strL "TypeError: Cannot read properties of null")
  | some (Json.obj fs) => Except.ok (getFieldList fs k)
  | some (Json.arr xs) =>
    if k ≠ [] ∧ k.all Char.isDigit then Except.ok (xs.get? (digitsToNat k))
    else Except.ok none
  | some _ => Except.ok none

/-- The access chain `data.choices[0].message.content` of
`OpenAIProvider.generateResponse`. -/
def openaiExtract (data : Json) : Except (List Char) (Option Json) := do
  let c ← jsMember (some data) (strL "choices")
  let c0 ← jsMember c (strL "0")
  let msg ← jsMember c0 (strL "message")
  jsMember msg (strL "content")

/-- `OpenAIProvider.generateResponse`: the HTTP status is never
inspected; any thrown cause (network, body parse, member access) is
rewrapped as `OpenAI generation failed: <message>`; otherwise the value
of `data.choices[0].message.content` is returned. -/
def OpenAIProvider.generateResponse (r : Except (List Char) JsResponse) :
    Except (List Char) (Option Json) :=
  match r with
  | Except.error m => Except.error (strL "OpenAI generation failed: " ++ m)
  | Except.ok resp =>
    match resp.body with
    | Except.error m => Except.error (strL "OpenAI generation failed: " ++ m)
    | Except.ok data =>
      match openaiExtract data with
      | Except.error m => Except.error (strL "OpenAI generation failed: " ++ m)
      | Except.ok v => Except.ok v

/-- `OllamaProvider.streamResponse`: non-2xx throws `HTTP <status>`
rewrapped as `Ollama streaming failed: ...`; otherwise each byte read is
decoded and fed through the line loop. The first component is the full
sequence of sink invocations. -/
def OllamaProvider.streamResponse (r : Except (List Char) StreamFetch) :
    List Chunk × Except (List Char) Unit :=
  match r with
  | Except.error m => ([], Except.error (strL "Ollama streaming failed: " ++ m))
  | Except.ok resp =>
    if !resp.ok then
      ([], Except.error (strL "Ollama streaming failed: HTTP " ++ Nat.toDigits 10 resp.status))
    else (streamDecode (resp.reads.map decodeRead), Except.ok ())

/-- `BaseProvider.streamResponse`: guard on the `supportsStreaming`
flag, then the unconditional not-implemented error; the sink is never
invoked on either path. -/
def BaseProvider.streamResponse (supportsStreaming : Bool) :
    List Chunk × Except (List Char) Unit :=
  if !supportsStreaming then
    ([], Except.error (strL "Streaming not supported by this provider"))
  else ([], Except.error (strL "streamResponse not implemented"))

/-- The provider classes of the source file. -/
inductive ProviderClass where
  | base : ProviderClass
  | ollama : ProviderClass
  | openai : ProviderClass
  | anthropic : ProviderClass
  | grok : ProviderClass

/-- The `supportsStreaming` flag each constructor assigns: `false` in
`BaseProvider`, overwritten with `true` by all four subclasses. -/
def ProviderClass.supportsStreaming : ProviderClass → Bool
  | ProviderClass.base => false
  | ProviderClass.ollama => true
  | ProviderClass.openai => true
  | ProviderClass.anthropic => true
  | ProviderClass.grok => true

/-- Dynamic dispatch of `streamResponse`: only `OllamaProvider`
overrides it; every other class inherits `BaseProvider.streamResponse`. -/
def ProviderClass.streamResponse (c : ProviderClass) (r : Except (List Char) StreamFetch) :
    List Chunk × Except (List Char) Unit :=
  match c with
  | ProviderClass.ollama => OllamaProvider.streamResponse r
  | c => BaseProvider.streamResponse (ProviderClass.supportsStreaming c)

/-- A provider as seen by the dispatcher: one implementation per
capability-contract operation. -/
structure ProviderImpl where
  testConnection : Except (List Char) Bool
  getAvailableModels : Except (List Char) (List ModelDescriptor)
  generateResponse : List Char → List Char → Except (List Char) (Option Json)
  streamResponse : List Char → List Char → List Chunk × Except (List Char) Unit

/-- A value the dispatcher's active reference can hold: a registered
provider, or a truthy non-provider member that `this.providers[name]`
finds on the prototype chain of the registry object literal. -/
inductive ProviderRef where
  | provider (p : ProviderImpl) : ProviderRef
  | protoMember (name : List Char) : ProviderRef

/-- The truthy properties every object literal inherits from
`Object.prototype` (functions, and the `__proto__` accessor whose value
is an object): indexing the registry with one of these names succeeds
even though no provider is registered under it. -/
def protoProperty (name : List Char) : Bool :=
  name = strL "constructor" || name = strL "hasOwnProperty" ||
  name = strL "isPrototypeOf" || name = strL "propertyIsEnumerable" ||
  name = strL "toLocaleString" || name = strL "toString" ||
  name = strL "valueOf" || name = strL "__proto__" ||
  name = strL "__defineGetter__" || name = strL "__defineSetter__" ||
  name = strL "__lookupGetter__" || name = strL "__lookupSetter__"

/-- The dispatcher state: the provider registry (`this.providers`) and
the active reference (`this.currentProvider`, `null` when unselected;
a prototype-chain hit can make it a non-provider). -/
structure APIManager where
  providers : List (List Char × ProviderImpl)
  currentProvider : Option ProviderRef

/-- Lookup among the registry object's own entries. -/
def lookupProvider : List (List Char × ProviderImpl) → List Char → Option ProviderImpl
  | [], _ => none
  | e :: es, n => if e.1 = n then some e.2 else lookupProvider es n

/-- JS property access `this.providers[providerName]` on the registry
object literal: an own entry shadows the prototype; on an own miss the
prototype chain is consulted, so the truthy `Object.prototype` members
are found as non-provider values; only other names yield a falsy
`undefined`. -/
def jsProvidersGet (ps : List (List Char × ProviderImpl)) (name : List Char) :
    Option ProviderRef :=
  match lookupProvider ps name with
  | some p => some (ProviderRef.provider p)
  | none =>
    if protoProperty name then some (ProviderRef.protoMember name) else none

/-- `APIManager.setProvider`: on any truthy lookup (an own registry
entry, or an inherited `Object.prototype` member) move the active
reference to the found value and report `true`; otherwise leave the
state unchanged and report `false` (logged, never thrown). -/
def APIManager.setProvider (m : APIManager) (name : List Char) : APIManager × Bool :=
  match jsProvidersGet m.providers name with
  | some r => ({ m with currentProvider := some r }, true)
  | none => (m, false)

/-- `APIManager.testConnection`: fail fast when no provider is active,
otherwise forward; invoking the operation on an inherited prototype
member throws a `TypeError` (modelled message), since that value has
no such method. -/
def APIManager.testConnection (m : APIManager) : Except (List Char) Bool :=
  match m.currentProvider with
  | none => Except.error (strL "No provider selected")
  | some (ProviderRef.provider p) => p.testConnection
  | some (ProviderRef.protoMember _) =>
    Except.error (strL "TypeError: this.currentProvider.testConnection is not a function")

/-- `APIManager.getAvailableModels`: fail fast when no provider is
active, otherwise forward; a prototype-member reference throws a
`TypeError` (modelled message). -/
def APIManager.getAvailableModels (m : APIManager) :
    Except (List Char) (List ModelDescriptor) :=
  match m.currentProvider with
  | none => Except.error (strL "No provider selected")
  | some (ProviderRef.provider p) => p.getAvailableModels
  | some (ProviderRef.protoMember _) =>
    Except.error (strL "TypeError: this.currentProvider.getAvailableModels is not a function")

/-- `APIManager.generateResponse`: fail fast when no provider is
active, otherwise forward; a prototype-member reference throws a
`TypeError` (modelled message). -/
def APIManager.generateResponse (m : APIManager) (prompt model : List Char) :
    Except (List Char) (Option Json) :=
  match m.currentProvider with
  | none => Except.error (strL "No provider selected")
  | some (ProviderRef.provider p) => p.generateResponse prompt model
  | some (ProviderRef.protoMember _) =>
    Except.error (strL "TypeError: this.currentProvider.generateResponse is not a function")

/-- `APIManager.streamResponse`: fail fast when no provider is active
(with zero sink invocations), otherwise forward; a prototype-member
reference throws a `TypeError` (modelled message) with zero sink
invocations. -/
def APIManager.streamResponse (m : APIManager) (prompt model : List Char) :
    List Chunk × Except (List Char) Unit :=
  match m.currentProvider with
  | none => ([], Except.error (strL "No provider selected"))
  | some (ProviderRef.provider p) => p.streamResponse prompt model
  | some (ProviderRef.protoMember _) =>
    ([], Except.error (strL "TypeError: this.currentProvider.streamResponse is not a function"))

/-- A sequence of `setProvider` calls applied in order. -/
def runSetProviders (m : APIManager) (names : List (List Char)) : APIManager :=
  names.foldl (fun acc n => (APIManager.setProvider acc n).1) m

/-- The invariant the dispatcher actually maintains: the active
reference is `null`, one of the registered providers, or an inherited
`Object.prototype` member picked up through the prototype chain. -/
def InvAPIManager (m : APIManager) : Prop :=
  m.currentProvider = none
  ∨ (∃ e ∈ m.providers, m.currentProvider = some (ProviderRef.provider e.2))
  ∨ (∃ n, protoProperty n = true ∧ m.currentProvider = some (ProviderRef.protoMember n))

/-- A sample provider implementation used to witness the dispatcher
theorems on concrete states. -/
def implW : ProviderImpl :=
  { testConnection := Except.ok true
    getAvailableModels := Except.ok []
    generateResponse := fun _ _ => Except.ok none
    streamResponse := fun _ _ => ([], Except.ok ()) }

/-- A sample dispatcher state: one registered provider, none selected. -/
def mgrW : APIManager :=
  { providers := [(strL "x", implW)], currentProvider := none }

/-- A non-2xx response whose JSON body nevertheless carries a `data`
array, exercising `OpenAIProvider.getAvailableModels`. -/
def respC8 : JsResponse :=
  ⟨false, 500,
    Except.ok (Json.obj [(strL "data", Json.arr [Json.obj [(strL "id", Json.str (strL "m"))]])])⟩

/-- A non-2xx response whose JSON body is nevertheless shaped like a
successful chat completion. -/
def respC9 : JsResponse :=
  ⟨false, 500,
    Except.ok (Json.obj [(strL "choices",
      Json.arr [Json.obj [(strL "message",
        Json.obj [(strL "content", Json.str (strL "oops"))])]])])⟩

/-- C1 restated from the spec: arbitrary read splits leave the
sequence of non-final chunks unchanged.  False at a mid-line split. -/
def readsC1 : List (List Char) := [strL "\x7b\"response\":\"Hel", strL "lo\"\x7d\x0a"]

def readsC1w : List (List Char) :=
  [strL "\x7b\"response\":\"A\"\x7d\x0a", strL "\x7b\"response\":\"B\"\x7d\x0a"]

def readsC2 : List (List Char) := [strL "\x7b\"done\":true\x7d\x0a"]

def extraC2 : List (List Char) := [strL "\x7b\"response\":\"Z\"\x7d\x0a"]

def badC6 : List Char := strL "oops"

def L2C6 : List (List Char) := [strL "\x7b\"response\":\"hi\"\x7d"]

def rC6 : List Char := strL "oops\x0a\x7b\"response\":\"hi\"\x7d"

def r2C6 : List Char := strL "\x7b\"response\":\"hi\"\x7d"

def readsC7w : List (List Nat) := [[0x68], [0xC3, 0xA9]]

theorem lookupProvider_mem {ps : List (List Char × ProviderImpl)} {n : List Char}
    {p : ProviderImpl} (h : lookupProvider ps n = some p) : ∃ e ∈ ps, e.2 = p := by
  induction ps with
  | nil => simp [lookupProvider] at h
  | cons e es ih =>
    by_cases he : e.1 = n
    · simp [lookupProvider, he] at h
      exact ⟨e, by simp, h⟩
    · simp [lookupProvider, he] at h
      obtain ⟨e2, he2, hp⟩ := ih h
      exact ⟨e2, by simp [he2], hp⟩

theorem setProvider_providers (m : APIManager) (name : List Char) :
    (APIManager.setProvider m name).1.providers = m.providers := by
  unfold APIManager.setProvider
  cases jsProvidersGet m.providers name <;> rfl

theorem setProvider_inv (m : APIManager) (name : List Char) (h : InvAPIManager m) :
    InvAPIManager (APIManager.setProvider m name).1 := by
  unfold APIManager.setProvider jsProvidersGet
  cases hl : lookupProvider m.providers name with
  | none =>
    by_cases hn : protoProperty name = true
    · simp only [hn, if_true]
      right; right
      exact ⟨name, hn, rfl⟩
    · simp only [Bool.not_eq_true] at hn
      simp only [hn, Bool.false_eq_true, if_false]
      exact h
  | some p =>
    right; left
    obtain ⟨e, he, hp⟩ := lookupProvider_mem hl
    exact ⟨e, he, by simp [hp]⟩

theorem runSetProviders_inv (names : List (List Char)) (m : APIManager)
    (h : InvAPIManager m) : InvAPIManager (runSetProviders m names) := by
  induction names generalizing m with
  | nil => exact h
  | cons n ns ih => exact ih _ (setProvider_inv m n h)

/-- C3: while no provider is selected, all four forwarding operations
fail with the explicit `No provider selected` error; once `setProvider
name` succeeds, each forwarding operation returns the result of the
selected provider's own implementation. -/
theorem C3_dispatcher_forwarding (m : APIManager) (name prompt model : List Char)
    (p : ProviderImpl) :
    (m.currentProvider = none →
      APIManager.testConnection m = Except.error (strL "No provider selected")
      ∧ APIManager.getAvailableModels m = Except.error (strL "No provider selected")
      ∧ APIManager.generateResponse m prompt model = Except.error (strL "No provider selected")
      ∧ APIManager.streamResponse m prompt model
          = ([], Except.error (strL "No provider selected")))
    ∧ (lookupProvider m.providers name = some p →
      (APIManager.setProvider m name).2 = true
      ∧ APIManager.testConnection (APIManager.setProvider m name).1 = p.testConnection
      ∧ APIManager.getAvailableModels (APIManager.setProvider m name).1 = p.getAvailableModels
      ∧ APIManager.generateResponse (APIManager.setProvider m name).1 prompt model
          = p.generateResponse prompt model
      ∧ APIManager.streamResponse (APIManager.setProvider m name).1 prompt model
          = p.streamResponse prompt model) := by
  constructor
  · intro h
    refine ⟨?_, ?_, ?_, ?_⟩ <;>
      simp [APIManager.testConnection, APIManager.getAvailableModels,
        APIManager.generateResponse, APIManager.streamResponse, h]
  · intro h
    refine ⟨?_, ?_, ?_, ?_, ?_⟩ <;>
      simp [APIManager.setProvider, jsProvidersGet, APIManager.testConnection,
        APIManager.getAvailableModels, APIManager.generateResponse,
        APIManager.streamResponse, h]

/-- Witness for C3 at a concrete dispatcher state. -/
theorem C3_dispatcher_forwarding_witness :
    APIManager.testConnection mgrW = Except.error (strL "No provider selected")
    ∧ (APIManager.setProvider mgrW (strL "x")).2 = true
    ∧ APIManager.testConnection (APIManager.setProvider mgrW (strL "x")).1
        = implW.testConnection := by
  have h := C3_dispatcher_forwarding mgrW (strL "x") [] [] implW
  exact ⟨(h.1 rfl).1, (h.2 rfl).1, (h.2 rfl).2.1⟩

/-- C4 as claimed is false: `this.providers[providerName]` consults the
prototype chain, so `setProvider` with the unregistered name `toString`
finds the truthy inherited `Object.prototype.toString`, reports success
and moves the active reference to that non-provider value, instead of
leaving the state unchanged and reporting failure. -/
theorem C4_counterexample :
    ¬ (∀ (m : APIManager) (names : List (List Char)) (name : List Char)
        (p : ProviderImpl),
        ((m.currentProvider = none
            ∨ ∃ e ∈ m.providers, m.currentProvider = some (ProviderRef.provider e.2)) →
          ((runSetProviders m names).currentProvider = none
            ∨ ∃ e ∈ (runSetProviders m names).providers,
                (runSetProviders m names).currentProvider = some (ProviderRef.provider e.2)))
        ∧ (lookupProvider m.providers name = some p →
            APIManager.setProvider m name
              = ({ m with currentProvider := some (ProviderRef.provider p) }, true))
        ∧ (lookupProvider m.providers name = none →
            APIManager.setProvider m name = (m, false))) := by
  intro h
  have h2 := (h mgrW [] (strL "toString") implW).2.2 rfl
  exact absurd (congrArg Prod.snd h2) (by decide)

/-- C4 amended: the reference stays `null`, a registered provider, or an
inherited `Object.prototype` member, across every sequence of
`setProvider` calls; a registered name moves the reference to that
provider and reports success; a name that is neither registered nor an
inherited prototype member leaves the state unchanged and reports
failure (the model is a total function, so nothing is thrown); an
inherited prototype-member name moves the reference to that
non-provider value and reports success. -/
theorem C4_amended_setProvider_invariant (m : APIManager) (names : List (List Char))
    (name : List Char) (p : ProviderImpl) :
    (InvAPIManager m → InvAPIManager (runSetProviders m names))
    ∧ (lookupProvider m.providers name = some p →
        APIManager.setProvider m name
          = ({ m with currentProvider := some (ProviderRef.provider p) }, true))
    ∧ (lookupProvider m.providers name = none → protoProperty name = false →
        APIManager.setProvider m name = (m, false))
    ∧ (lookupProvider m.providers name = none → protoProperty name = true →
        APIManager.setProvider m name
          = ({ m with currentProvider := some (ProviderRef.protoMember name) }, true)) := by
  refine ⟨fun h => runSetProviders_inv names m h, ?_, ?_, ?_⟩
  · intro h
    simp [APIManager.setProvider, jsProvidersGet, h]
  · intro h hn
    simp [APIManager.setProvider, jsProvidersGet, h, hn]
  · intro h hn
    simp [APIManager.setProvider, jsProvidersGet, h, hn]

/-- Witness for the amended C4 at a concrete dispatcher state, with a
registered name, a miss, and a prototype-chain hit. -/
theorem C4_amended_setProvider_invariant_witness :
    InvAPIManager (runSetProviders mgrW [strL "x", strL "toString", strL "nope"])
    ∧ APIManager.setProvider mgrW (strL "nope") = (mgrW, false)
    ∧ APIManager.setProvider mgrW (strL "toString")
        = ({ mgrW with currentProvider := some (ProviderRef.protoMember (strL "toString")) },
           true) := by
  have h1 := C4_amended_setProvider_invariant mgrW [strL "x", strL "toString", strL "nope"]
    (strL "nope") implW
  have h2 := C4_amended_setProvider_invariant mgrW [] (strL "toString") implW
  exact ⟨h1.1 (Or.inl rfl), h1.2.2.1 rfl rfl, h2.2.2.2 rfl rfl⟩

/-- C5: a provider whose `supportsStreaming` flag is `false` answers
`streamResponse` with the unsupported-operation error and never invokes
the sink (the emitted-chunk list is empty). -/
theorem C5_unsupported_streaming (c : ProviderClass) (r : Except (List Char) StreamFetch)
    (h : ProviderClass.supportsStreaming c = false) :
    ProviderClass.streamResponse c r
      = ([], Except.error (strL "Streaming not supported by this provider")) := by
  cases c <;> first
    | rfl
    | simp [ProviderClass.supportsStreaming] at h

/-- Witness for C5: the base class is the one whose flag is `false`. -/
theorem C5_unsupported_streaming_witness :
    ProviderClass.supportsStreaming ProviderClass.base = false
    ∧ ProviderClass.streamResponse ProviderClass.base (Except.ok ⟨true, 200, []⟩)
        = ([], Except.error (strL "Streaming not supported by this provider")) :=
  ⟨rfl, C5_unsupported_streaming ProviderClass.base (Except.ok ⟨true, 200, []⟩) rfl⟩

/-- C10: the Anthropic and Grok stubs set `supportsStreaming` to `true`
without overriding `streamResponse`, so streaming calls pass the
unsupported-operation guard and fail with the not-implemented error,
with zero sink invocations. -/
theorem C10_stub_streaming (r : Except (List Char) StreamFetch) :
    ProviderClass.supportsStreaming ProviderClass.anthropic = true
    ∧ ProviderClass.supportsStreaming ProviderClass.grok = true
    ∧ ProviderClass.streamResponse ProviderClass.anthropic r
        = ([], Except.error (strL "streamResponse not implemented"))
    ∧ ProviderClass.streamResponse ProviderClass.grok r
        = ([], Except.error (strL "streamResponse not implemented")) :=
  ⟨rfl, rfl, rfl, rfl⟩

/-- C8 as claimed is false: `OpenAIProvider.getAvailableModels` never
inspects the HTTP status, so a non-2xx response with a parseable `data`
array yields a non-empty list. -/
theorem C8_counterexample :
    ¬ (∀ (resp : JsResponse) (em : List Char),
        (resp.ok = false →
          OllamaProvider.getAvailableModels (Except.ok resp) = []
          ∧ OpenAIProvider.getAvailableModels (Except.ok resp) = [])
        ∧ OllamaProvider.getAvailableModels (Except.error em) = []
        ∧ OpenAIProvider.getAvailableModels (Except.error em) = []) := by
  intro h
  have h2 := ((h respC8 []).1 rfl).2
  exact absurd (congrArg List.length h2) (by decide)

/-- C8 amended: Ollama returns `[]` on a network error, a non-2xx
status, or an unparseable body; OpenAI returns `[]` on a network error
or an unparseable body but ignores the HTTP status entirely. -/
theorem C8_amended_models_on_failure (em : List Char) (resp : JsResponse) :
    OllamaProvider.getAvailableModels (Except.error em) = []
    ∧ (resp.ok = false → OllamaProvider.getAvailableModels (Except.ok resp) = [])
    ∧ (resp.body = Except.error em → OllamaProvider.getAvailableModels (Except.ok resp) = [])
    ∧ OpenAIProvider.getAvailableModels (Except.error em) = []
    ∧ (resp.body = Except.error em → OpenAIProvider.getAvailableModels (Except.ok resp) = []) := by
  obtain ⟨ok, status, body⟩ := resp
  refine ⟨rfl, ?_, ?_, rfl, ?_⟩
  · intro h
    simp at h
    simp [OllamaProvider.getAvailableModels, h]
  · intro h
    simp at h
    cases ok <;> simp [OllamaProvider.getAvailableModels, h]
  · intro h
    simp at h
    simp [OpenAIProvider.getAvailableModels, h]

/-- Witness for the amended C8 at concrete failing responses. -/
theorem C8_amended_models_on_failure_witness :
    OllamaProvider.getAvailableModels (Except.ok ⟨false, 500, Except.error (strL "boom")⟩) = []
    ∧ OpenAIProvider.getAvailableModels
        (Except.ok ⟨false, 500, Except.error (strL "boom")⟩) = [] := by
  have h := C8_amended_models_on_failure (strL "boom") ⟨false, 500, Except.error (strL "boom")⟩
  exact ⟨h.2.1 rfl, h.2.2.2.2 rfl⟩

/-- C9 as claimed is false: `OpenAIProvider.generateResponse` never
inspects the HTTP status, so a non-2xx response with a success-shaped
body is returned as a successful generation, not an error. -/
theorem C9_counterexample :
    ¬ (∀ resp : JsResponse, resp.ok = false →
        ∃ e, OpenAIProvider.generateResponse (Except.ok resp) = Except.error e) := by
  intro h
  obtain ⟨e, he⟩ := h respC9 rfl
  have hok : OpenAIProvider.generateResponse (Except.ok respC9)
      = Except.ok (some (Json.str (strL "oops"))) := rfl
  rw [hok] at he
  exact Except.noConfusion he

/-- C9 amended: Ollama's `generateResponse` wraps the HTTP status or
the network cause and returns `data.response` on success; OpenAI's
wraps the network, body-parse, or member-access cause, but ignores the
HTTP status, returning `data.choices[0].message.content` whenever that
chain succeeds. -/
theorem C9_amended_generate_errors (em : List Char) (resp : JsResponse) (data : Json)
    (v : Option Json) :
    OllamaProvider.generateResponse (Except.error em)
      = Except.error (strL "Ollama generation failed: " ++ em)
    ∧ (resp.ok = false → OllamaProvider.generateResponse (Except.ok resp)
        = Except.error (strL "Ollama generation failed: HTTP " ++ Nat.toDigits 10 resp.status))
    ∧ (resp.ok = true → resp.body = Except.ok data →
        OllamaProvider.generateResponse (Except.ok resp)
          = Except.ok (getField data (strL "response")))
    ∧ OpenAIProvider.generateResponse (Except.error em)
      = Except.error (strL "OpenAI generation failed: " ++ em)
    ∧ (resp.body = Except.error em → OpenAIProvider.generateResponse (Except.ok resp)
        = Except.error (strL "OpenAI generation failed: " ++ em))
    ∧ (resp.body = Except.ok data → openaiExtract data = Except.ok v →
        OpenAIProvider.generateResponse (Except.ok resp) = Except.ok v) := by
  obtain ⟨ok, status, body⟩ := resp
  refine ⟨rfl, ?_, ?_, rfl, ?_, ?_⟩
  · intro h
    simp at h
    simp [OllamaProvider.generateResponse, h]
  · intro h hb
    simp at h hb
    simp [OllamaProvider.generateResponse, h, hb]
  · intro h
    simp at h
    simp [OpenAIProvider.generateResponse, h]
  · intro hb hx
    simp at hb
    simp [OpenAIProvider.generateResponse, hb, hx]

/-- Witness for the amended C9 at concrete inputs. -/
theorem C9_amended_generate_errors_witness :
    OllamaProvider.generateResponse (Except.ok ⟨false, 404, Except.ok Json.null⟩)
      = Except.error (strL "Ollama generation failed: HTTP " ++ Nat.toDigits 10 404)
    ∧ OpenAIProvider.generateResponse (Except.ok ⟨true, 200, Except.error (strL "bad json")⟩)
      = Except.error (strL "OpenAI generation failed: " ++ strL "bad json") := by
  have h1 := C9_amended_generate_errors (strL "bad json") ⟨false, 404, Except.ok Json.null⟩
    Json.null none
  have h2 := C9_amended_generate_errors (strL "bad json") ⟨true, 200, Except.error (strL "bad json")⟩
    Json.null none
  exact ⟨h1.2.1 rfl, h2.2.2.2.2.1 rfl⟩

theorem splitNl_cons (c : Char) (cs : List Char) :
    splitNl (c :: cs) = if c = Char.ofNat 10 then [] :: splitNl cs
      else match splitNl cs with
        | l :: ls => (c :: l) :: ls
        | [] => [[c]] := rfl

theorem splitNl_ne_nil (cs : List Char) : splitNl cs ≠ [] := by
  cases cs with
  | nil => simp [splitNl]
  | cons c cs =>
    rw [splitNl_cons]
    by_cases h : c = Char.ofNat 10
    · simp [h]
    · simp only [if_neg h]
      rcases hs : splitNl cs with _ | ⟨l, ls⟩
      · simp
      · simp

theorem splitNl_endNl_shape :
    ∀ a : List Char, a.getLast? = some (Char.ofNat 10) →
      (splitNl a).getLast? = some [] ∧ 2 ≤ (splitNl a).length := by
  intro a
  induction a with
  | nil => intro h; simp at h
  | cons c a2 ih =>
    intro h
    cases a2 with
    | nil =>
      simp only [List.getLast?_singleton, Option.some.injEq] at h
      subst h
      simp [splitNl]
    | cons c2 a3 =>
      rw [List.getLast?_cons_cons] at h
      obtain ⟨hlast, hlen⟩ := ih h
      obtain ⟨x, xs, hx⟩ := List.exists_cons_of_ne_nil (splitNl_ne_nil (c2 :: a3))
      by_cases hc : c = Char.ofNat 10
      · rw [splitNl_cons, if_pos hc, hx]
        rw [hx] at hlast hlen
        constructor
        · rw [List.getLast?_cons_cons]; exact hlast
        · simp
      · rw [splitNl_cons, if_neg hc, hx]
        rw [hx] at hlast hlen
        cases xs with
        | nil => simp at hlen
        | cons y ys =>
          constructor
          · rw [List.getLast?_cons_cons]
            rw [List.getLast?_cons_cons] at hlast
            exact hlast
          · simp at hlen ⊢

theorem splitNl_append_endNl :
    ∀ (a b : List Char), (a = [] ∨ a.getLast? = some (Char.ofNat 10)) →
      splitNl (a ++ b) = (splitNl a).dropLast ++ splitNl b := by
  intro a
  induction a with
  | nil => intro b _; simp [splitNl]
  | cons c a2 ih =>
    intro b h
    rcases h with h | h
    · exact absurd h (by simp)
    · cases a2 with
      | nil =>
        simp only [List.getLast?_singleton, Option.some.injEq] at h
        subst h
        simp [splitNl]
      | cons c2 a3 =>
        rw [List.getLast?_cons_cons] at h
        have ihb := ih b (Or.inr h)
        obtain ⟨x, xs, hx⟩ := List.exists_cons_of_ne_nil (splitNl_ne_nil (c2 :: a3))
        have hlen := (splitNl_endNl_shape (c2 :: a3) h).2
        by_cases hc : c = Char.ofNat 10
        · subst hc
          rw [List.cons_append, splitNl_cons, if_pos rfl, ihb, hx,
            splitNl_cons, if_pos rfl, hx, List.dropLast_cons₂]
          simp
        · rw [hx] at hlen
          cases xs with
          | nil => simp at hlen
          | cons y ys =>
            rw [List.cons_append, splitNl_cons, if_neg hc, ihb, hx, List.dropLast_cons₂,
              splitNl_cons, if_neg hc, hx]
            simp [List.dropLast_cons₂]

theorem splitNl_self_decomp (a : List Char) (h : a.getLast? = some (Char.ofNat 10)) :
    splitNl a = (splitNl a).dropLast ++ [[]] := by
  have h2 := splitNl_append_endNl a [] (Or.inr h)
  simpa [splitNl] using h2

theorem isBlank_nil : isBlank [] = true := rfl

theorem linesOfRead_append (a b : List Char)
    (h : a = [] ∨ a.getLast? = some (Char.ofNat 10)) :
    linesOfRead (a ++ b) = linesOfRead a ++ linesOfRead b := by
  rcases h with h | h
  · subst h; simp [linesOfRead, splitNl, isBlank_nil]
  · unfold linesOfRead
    rw [splitNl_append_endNl a b (Or.inr h), List.filter_append]
    congr 1
    conv_rhs => rw [splitNl_self_decomp a h]
    rw [List.filter_append]
    simp [isBlank_nil]

theorem flatten_linesOfRead (reads : List (List Char))
    (h : ∀ r ∈ reads, r = [] ∨ r.getLast? = some (Char.ofNat 10)) :
    (reads.map linesOfRead).flatten = linesOfRead reads.flatten := by
  induction reads with
  | nil => simp [linesOfRead, splitNl, isBlank_nil]
  | cons r rs ih =>
    simp only [List.map_cons, List.flatten_cons]
    rw [ih (fun x hx => h x (List.mem_cons_of_mem r hx)),
      ← linesOfRead_append r rs.flatten (h r (List.mem_cons_self r rs))]

theorem processLines_cons (l : List Char) (ls : List (List Char)) :
    processLines (l :: ls)
      = match parseJsonLine l with
        | none => processLines ls
        | some j =>
          if truthyOpt (getField j (strL "done")) then (respChunks j ++ [(Json.str [], true)], true)
          else (respChunks j ++ (processLines ls).1, (processLines ls).2) := rfl

theorem processLines_append (L1 L2 : List (List Char)) :
    processLines (L1 ++ L2)
      = (if (processLines L1).2 then (processLines L1).1
          else (processLines L1).1 ++ (processLines L2).1,
         (processLines L1).2 || (processLines L2).2) := by
  induction L1 with
  | nil => simp [processLines]
  | cons l ls ih =>
    rw [List.cons_append, processLines_cons, processLines_cons]
    cases hp : parseJsonLine l with
    | none => simpa using ih
    | some j =>
      by_cases hd : truthyOpt (getField j (strL "done"))
      · simp [hd]
      · simp only [Bool.not_eq_true] at hd
        simp [hd, ih]
        by_cases h1 : (processLines ls).2 = true <;> simp [h1]


theorem dropLast_append_ne_nil {α : Type} (l1 l2 : List α) (h : l2 ≠ []) :
    (l1 ++ l2).dropLast = l1 ++ l2.dropLast := by
  simp [List.dropLast_append, h]

theorem streamDecode_cons (r : List Char) (rs : List (List Char)) :
    streamDecode (r :: rs)
      = if (processLines (linesOfRead r)).2 then (processLines (linesOfRead r)).1
        else (processLines (linesOfRead r)).1 ++ streamDecode rs := rfl

theorem streamDecode_eq_processLines (reads : List (List Char)) :
    streamDecode reads = (processLines ((reads.map linesOfRead).flatten)).1 := by
  induction reads with
  | nil => simp [streamDecode, processLines]
  | cons r rs ih =>
    rw [streamDecode_cons, List.map_cons, List.flatten_cons, processLines_append]
    by_cases h : (processLines (linesOfRead r)).2 = true <;> simp [h, ih]

theorem processLines_done_any (L : List (List Char)) :
    (processLines L).2 = L.any lineDone := by
  induction L with
  | nil => simp [processLines]
  | cons l ls ih =>
    rw [processLines_cons, List.any_cons]
    cases hp : parseJsonLine l with
    | none => simp [lineDone, hp, ih]
    | some j =>
      by_cases hd : truthyOpt (getField j (strL "done"))
      · simp [lineDone, hp, hd]
      · simp only [Bool.not_eq_true] at hd
        simp [lineDone, hp, hd, ih]

theorem respChunks_all_nonfinal (j : Json) : (respChunks j).all (fun c => !c.2) = true := by
  unfold respChunks
  cases getField j (strL "response") with
  | none => rfl
  | some v => by_cases h : truthy v <;> simp [h]

theorem respChunks_any_final (j : Json) : (respChunks j).any (fun c => c.2) = false := by
  unfold respChunks
  cases getField j (strL "response") with
  | none => rfl
  | some v => by_cases h : truthy v <;> simp [h]

theorem processLines_any_final (L : List (List Char)) :
    (processLines L).1.any (fun c => c.2) = (processLines L).2 := by
  induction L with
  | nil => rfl
  | cons l ls ih =>
    rw [processLines_cons]
    cases hp : parseJsonLine l with
    | none => exact ih
    | some j =>
      by_cases hd : truthyOpt (getField j (strL "done"))
      · simp [hd, List.any_append, respChunks_any_final]
      · simp only [Bool.not_eq_true] at hd
        simp [hd, List.any_append, respChunks_any_final, ih]

theorem processLines_terminal_shape (L : List (List Char)) :
    ((processLines L).2 = true →
      (processLines L).1.getLast? = some (Json.str [], true)
      ∧ (processLines L).1.dropLast.all (fun c => !c.2) = true)
    ∧ ((processLines L).2 = false →
      (processLines L).1.all (fun c => !c.2) = true) := by
  induction L with
  | nil => exact ⟨fun h => by simp [processLines] at h, fun _ => rfl⟩
  | cons l ls ih =>
    rw [processLines_cons]
    cases hp : parseJsonLine l with
    | none => exact ih
    | some j =>
      by_cases hd : truthyOpt (getField j (strL "done"))
      · simp only [hd, if_true]
        refine ⟨fun _ => ⟨by simp, by simp [respChunks_all_nonfinal]⟩, fun h => by simp at h⟩
      · simp only [Bool.not_eq_true] at hd
        simp only [hd, Bool.false_eq_true, if_false]
        constructor
        · intro h2
          obtain ⟨hl, hdl⟩ := ih.1 h2
          have hne : (processLines ls).1 ≠ [] := by
            intro hn; rw [hn] at hl; simp at hl
          refine ⟨?_, ?_⟩
          · rw [List.getLast?_append_of_ne_nil _ hne]; exact hl
          · rw [dropLast_append_ne_nil _ _ hne, List.all_append, respChunks_all_nonfinal, hdl]
            rfl
        · intro h2
          simp [List.all_append, respChunks_all_nonfinal, ih.2 h2]

theorem anyDone_nil : anyDone [] = false := rfl

theorem anyDone_cons (r : List Char) (rs : List (List Char)) :
    anyDone (r :: rs) = ((linesOfRead r).any lineDone || anyDone rs) := by
  simp [anyDone, List.any_append]

theorem streamDecode_append_done (reads extra : List (List Char))
    (h : anyDone reads = true) :
    streamDecode (reads ++ extra) = streamDecode reads := by
  induction reads with
  | nil => rw [anyDone_nil] at h; exact Bool.noConfusion h
  | cons r rs ih =>
    rw [List.cons_append, streamDecode_cons, streamDecode_cons]
    by_cases hr : (processLines (linesOfRead r)).2 = true
    · simp [hr]
    · rw [anyDone_cons] at h
      rw [processLines_done_any] at hr
      simp only [Bool.not_eq_true] at hr
      rw [hr, Bool.false_or] at h
      rw [processLines_done_any, hr]
      simp [ih h]

/-- C1 as claimed is false: a read boundary in the middle of a line makes
both fragments fail to parse, so the split input emits fewer `(text,
false)` chunks than the single read.  Refuted at `readsC1`. -/
theorem C1_counterexample :
    ¬ (∀ reads : List (List Char),
        (streamDecode reads).filter (fun c => !c.2)
          = (streamDecode [reads.flatten]).filter (fun c => !c.2)) := by
  intro h
  exact absurd (congrArg List.length (h readsC1)) (by decide)

/-- C1 amended: the decoder never buffers a partial line across reads,
so the chunk sequence is split-invariant only when every read boundary
falls at a line boundary (each read empty or newline-terminated); then
the chunks equal those of one single read. -/
theorem C1_amended_boundary_split (reads : List (List Char))
    (h : ∀ r ∈ reads, r = [] ∨ r.getLast? = some (Char.ofNat 10)) :
    streamDecode reads = streamDecode [reads.flatten] := by
  rw [streamDecode_eq_processLines, streamDecode_eq_processLines,
    flatten_linesOfRead reads h]
  simp

/-- Witness for the amended C1 at two newline-terminated reads. -/
theorem C1_amended_boundary_split_witness :
    (∀ r ∈ readsC1w, r = [] ∨ r.getLast? = some (Char.ofNat 10))
    ∧ streamDecode readsC1w = streamDecode [readsC1w.flatten] := by
  have h : ∀ r ∈ readsC1w, r = [] ∨ r.getLast? = some (Char.ofNat 10) := by decide
  exact ⟨h, C1_amended_boundary_split readsC1w h⟩

/-- C2: a terminal chunk appears in the output iff some parsed line has
a truthy completion flag; when it does, the terminal `("", true)` chunk
is the last chunk, every earlier chunk is non-final, and reading stops
(appending further reads changes nothing); when the stream ends without
a completion flag, no terminal chunk is ever emitted. -/
theorem C2_terminal_chunk_behavior (reads extra : List (List Char)) :
    ((streamDecode reads).any (fun c => c.2) = anyDone reads)
    ∧ (anyDone reads = true →
        (streamDecode reads).getLast? = some (Json.str [], true)
        ∧ (streamDecode reads).dropLast.all (fun c => !c.2) = true
        ∧ streamDecode (reads ++ extra) = streamDecode reads)
    ∧ (anyDone reads = false →
        (streamDecode reads).all (fun c => !c.2) = true) := by
  have hJ : anyDone reads = (processLines ((reads.map linesOfRead).flatten)).2 := by
    rw [processLines_done_any]; rfl
  refine ⟨?_, ?_, ?_⟩
  · rw [streamDecode_eq_processLines, processLines_any_final, hJ]
  · intro h
    have h2 := h
    rw [hJ] at h2
    obtain ⟨hl, hdl⟩ := (processLines_terminal_shape _).1 h2
    refine ⟨?_, ?_, streamDecode_append_done reads extra h⟩
    · rw [streamDecode_eq_processLines]; exact hl
    · rw [streamDecode_eq_processLines]; exact hdl
  · intro h
    rw [hJ] at h
    rw [streamDecode_eq_processLines]
    exact (processLines_terminal_shape _).2 h

/-- Witness for C2 at a concrete stream carrying a completion flag. -/
theorem C2_terminal_chunk_behavior_witness :
    anyDone readsC2 = true
    ∧ (streamDecode readsC2).getLast? = some (Json.str [], true)
    ∧ streamDecode (readsC2 ++ extraC2) = streamDecode readsC2 := by
  have h := C2_terminal_chunk_behavior readsC2 extraC2
  have hd : anyDone readsC2 = true := by decide
  exact ⟨hd, (h.2.1 hd).1, (h.2.1 hd).2.2⟩

/-- C6: a line that fails JSON parsing produces no sink invocation and
does not abort the loop: dropping it from the line sequence leaves the
result unchanged, both at the line-loop level and across the whole read
loop (later lines and later reads are processed normally). -/
theorem C6_malformed_line_skipped (L1 L2 : List (List Char)) (bad r r2 : List Char)
    (rs : List (List Char)) (hb : parseJsonLine bad = none) :
    processLines (L1 ++ bad :: L2) = processLines (L1 ++ L2)
    ∧ (linesOfRead r = L1 ++ bad :: L2 → linesOfRead r2 = L1 ++ L2 →
        streamDecode (r :: rs) = streamDecode (r2 :: rs)) := by
  have key : processLines (L1 ++ bad :: L2) = processLines (L1 ++ L2) := by
    induction L1 with
    | nil =>
      simp only [List.nil_append]
      rw [processLines_cons, hb]
    | cons l ls ih =>
      rw [List.cons_append, List.cons_append, processLines_cons, processLines_cons, ih]
  refine ⟨key, fun h1 h2 => ?_⟩
  rw [streamDecode_cons, streamDecode_cons, h1, h2, key]

/-- Witness for C6 at a concrete malformed line. -/
theorem C6_malformed_line_skipped_witness :
    processLines ([] ++ badC6 :: L2C6) = processLines ([] ++ L2C6)
    ∧ streamDecode (rC6 :: []) = streamDecode (r2C6 :: []) := by
  have h := C6_malformed_line_skipped [] L2C6 badC6 rC6 r2C6 [] (by rfl)
  exact ⟨h.1, h.2 (by rfl) (by rfl)⟩

theorem utf8Step_snd_length (b : Nat) (rest : List Nat) :
    (utf8Step b rest).2.length ≤ rest.length := by
  unfold utf8Step
  by_cases h1 : b < 0x80
  · simp [h1]
  by_cases h2 : b < 0xC2
  · simp [h1, h2]
  by_cases h3 : b < 0xE0
  · simp only [if_neg h1, if_neg h2, if_pos h3]
    rcases rest with _ | ⟨c, r⟩
    · simp
    · by_cases hc : isContByte c <;> simp [hc]
  by_cases h4 : b < 0xF0
  · simp only [if_neg h1, if_neg h2, if_neg h3, if_pos h4]
    rcases rest with _ | ⟨c, _ | ⟨d, r⟩⟩
    · simp
    · by_cases hc : cont3 b c <;> simp [hc]
    · by_cases hc : cont3 b c
      · by_cases hd : isContByte d <;> simp [hc, hd]
        omega
      · simp [hc]
  by_cases h5 : b < 0xF5
  · simp only [if_neg h1, if_neg h2, if_neg h3, if_neg h4, if_pos h5]
    rcases rest with _ | ⟨c, _ | ⟨d, _ | ⟨e, r⟩⟩⟩
    · simp
    · by_cases hc : cont4 b c <;> simp [hc]
    · by_cases hc : cont4 b c
      · by_cases hd : isContByte d <;> simp [hc, hd]
      · simp [hc]
    · by_cases hc : cont4 b c
      · by_cases hd : isContByte d
        · by_cases he : isContByte e <;> simp [hc, hd, he]
          omega
        · simp [hc, hd]
      · simp [hc]
  · simp [h1, h2, h3, h4, h5]

theorem decodeUtf8Go_nil (n : Nat) : decodeUtf8Go n [] = [] := by
  cases n <;> rfl

theorem decodeUtf8Go_cons (k b : Nat) (rest : List Nat) :
    decodeUtf8Go (k + 1) (b :: rest)
      = (utf8Step b rest).1.getD 0xFFFD :: decodeUtf8Go k (utf8Step b rest).2 := rfl

theorem decodeUtf8Go_fuel :
    ∀ (n m : Nat) (bs : List Nat), bs.length ≤ n → bs.length ≤ m →
      decodeUtf8Go n bs = decodeUtf8Go m bs := by
  intro n
  induction n with
  | zero =>
    intro m bs h1 _
    have hb : bs = [] := List.eq_nil_of_length_eq_zero (Nat.le_zero.mp h1)
    subst hb
    rw [decodeUtf8Go_nil, decodeUtf8Go_nil]
  | succ n ih =>
    intro m bs h1 h2
    cases bs with
    | nil => rw [decodeUtf8Go_nil, decodeUtf8Go_nil]
    | cons b rest =>
      cases m with
      | zero => simp at h2
      | succ m2 =>
        rw [decodeUtf8Go_cons, decodeUtf8Go_cons]
        congr 1
        have hs := utf8Step_snd_length b rest
        simp only [List.length_cons, Nat.add_le_add_iff_right] at h1 h2
        exact ih m2 _ (le_trans hs h1) (le_trans hs h2)

theorem decodeUtf8_cons (b : Nat) (rest : List Nat) :
    decodeUtf8 (b :: rest)
      = (utf8Step b rest).1.getD 0xFFFD :: decodeUtf8 (utf8Step b rest).2 := by
  unfold decodeUtf8
  rw [show (b :: rest).length = rest.length + 1 from rfl, decodeUtf8Go_cons]
  congr 1
  exact decodeUtf8Go_fuel rest.length (utf8Step b rest).2.length _
    (utf8Step_snd_length b rest) le_rfl

theorem wfGo_nil (n : Nat) : wfGo n [] = true := by
  cases n <;> rfl

theorem wfGo_cons (k b : Nat) (rest : List Nat) :
    wfGo (k + 1) (b :: rest)
      = match utf8Step b rest with
        | (some _, r) => wfGo k r
        | (none, _) => false := rfl

theorem wfGo_fuel :
    ∀ (n m : Nat) (bs : List Nat), bs.length ≤ n → bs.length ≤ m →
      wfGo n bs = wfGo m bs := by
  intro n
  induction n with
  | zero =>
    intro m bs h1 _
    have hb : bs = [] := List.eq_nil_of_length_eq_zero (Nat.le_zero.mp h1)
    subst hb
    rw [wfGo_nil, wfGo_nil]
  | succ n ih =>
    intro m bs h1 h2
    cases bs with
    | nil => rw [wfGo_nil, wfGo_nil]
    | cons b rest =>
      cases m with
      | zero => simp at h2
      | succ m2 =>
        rw [wfGo_cons, wfGo_cons]
        have hs := utf8Step_snd_length b rest
        simp only [List.length_cons, Nat.add_le_add_iff_right] at h1 h2
        rcases hstep : utf8Step b rest with ⟨oc, r⟩
        cases oc with
        | none => rfl
        | some cp =>
          simp only []
          rw [hstep] at hs
          exact ih m2 r (le_trans hs h1) (le_trans hs h2)

theorem wellFormedUtf8_cons_some (b : Nat) (rest : List Nat) {cp : Nat} {r : List Nat}
    (h : utf8Step b rest = (some cp, r)) :
    wellFormedUtf8 (b :: rest) = wellFormedUtf8 r := by
  unfold wellFormedUtf8
  rw [show (b :: rest).length = rest.length + 1 from rfl, wfGo_cons, h]
  have hr : r.length ≤ rest.length := by
    have hs := utf8Step_snd_length b rest
    rw [h] at hs; exact hs
  exact wfGo_fuel rest.length r.length r hr le_rfl

theorem wellFormedUtf8_cons_none (b : Nat) (rest : List Nat) {r : List Nat}
    (h : utf8Step b rest = (none, r)) :
    wellFormedUtf8 (b :: rest) = false := by
  unfold wellFormedUtf8
  rw [show (b :: rest).length = rest.length + 1 from rfl, wfGo_cons, h]

theorem utf8Step_append (b cp : Nat) (rest r t : List Nat)
    (h : utf8Step b rest = (some cp, r)) :
    utf8Step b (rest ++ t) = (some cp, r ++ t) := by
  unfold utf8Step at h ⊢
  by_cases h1 : b < 0x80
  · simp [h1] at h ⊢
    exact ⟨h.1, by rw [h.2]⟩
  by_cases h2 : b < 0xC2
  · simp [h1, h2] at h
  by_cases h3 : b < 0xE0
  · simp only [if_neg h1, if_neg h2, if_pos h3] at h ⊢
    rcases rest with _ | ⟨c, r0⟩
    · simp at h
    · by_cases hc : isContByte c
      · simp [hc] at h ⊢
        exact ⟨h.1, by rw [h.2]⟩
      · simp [hc] at h
  by_cases h4 : b < 0xF0
  · simp only [if_neg h1, if_neg h2, if_neg h3, if_pos h4] at h ⊢
    rcases rest with _ | ⟨c, _ | ⟨d, r0⟩⟩
    · simp at h
    · by_cases hc : cont3 b c <;> simp [hc] at h
    · by_cases hc : cont3 b c
      · by_cases hd : isContByte d
        · simp [hc, hd] at h ⊢
          exact ⟨h.1, by rw [h.2]⟩
        · simp [hc, hd] at h
      · simp [hc] at h
  by_cases h5 : b < 0xF5
  · simp only [if_neg h1, if_neg h2, if_neg h3, if_neg h4, if_pos h5] at h ⊢
    rcases rest with _ | ⟨c, _ | ⟨d, _ | ⟨e, r0⟩⟩⟩
    · simp at h
    · by_cases hc : cont4 b c <;> simp [hc] at h
    · by_cases hc : cont4 b c
      · by_cases hd : isContByte d <;> simp [hc, hd] at h
      · simp [hc] at h
    · by_cases hc : cont4 b c
      · by_cases hd : isContByte d
        · by_cases he : isContByte e
          · simp [hc, hd, he] at h ⊢
            exact ⟨h.1, by rw [h.2]⟩
          · simp [hc, hd, he] at h
        · simp [hc, hd] at h
      · simp [hc] at h
  · simp [h1, h2, h3, h4, h5] at h

theorem decodeUtf8_append_wf_aux :
    ∀ (n : Nat) (a t : List Nat), a.length ≤ n → wellFormedUtf8 a = true →
      decodeUtf8 (a ++ t) = decodeUtf8 a ++ decodeUtf8 t := by
  intro n
  induction n with
  | zero =>
    intro a t h1 _
    have ha : a = [] := List.eq_nil_of_length_eq_zero (Nat.le_zero.mp h1)
    subst ha
    simp [decodeUtf8, decodeUtf8Go_nil]
  | succ n ih =>
    intro a t h1 hwf
    cases a with
    | nil => simp [decodeUtf8, decodeUtf8Go_nil]
    | cons b rest =>
      rcases hstep : utf8Step b rest with ⟨oc, r⟩
      cases oc with
      | none =>
        rw [wellFormedUtf8_cons_none b rest hstep] at hwf
        exact Bool.noConfusion hwf
      | some cp =>
        have hwr : wellFormedUtf8 r = true := by
          rw [wellFormedUtf8_cons_some b rest hstep] at hwf
          exact hwf
        have hr : r.length ≤ rest.length := by
          have hs := utf8Step_snd_length b rest
          rw [hstep] at hs; exact hs
        have h1r : r.length ≤ n := by
          simp only [List.length_cons, Nat.add_le_add_iff_right] at h1
          exact le_trans hr h1
        rw [List.cons_append, decodeUtf8_cons, utf8Step_append b cp rest r t hstep,
          decodeUtf8_cons b rest, hstep, ih r t h1r hwr]
        rfl

theorem decodeUtf8_append_wf (a t : List Nat) (h : wellFormedUtf8 a = true) :
    decodeUtf8 (a ++ t) = decodeUtf8 a ++ decodeUtf8 t :=
  decodeUtf8_append_wf_aux a.length a t le_rfl h

/-- C7 as claimed is false: the source calls `decode(value)` without
`stream: true`, so each read is decoded independently and a multi-byte
sequence split across reads becomes replacement characters instead of
being combined.  Refuted at the two-byte sequence `C3 A9` split in two. -/
theorem C7_counterexample :
    ¬ (∀ reads : List (List Nat),
        (reads.map decodeUtf8).flatten = decodeUtf8 reads.flatten) := by
  intro h
  exact absurd (congrArg List.length (h [[0xC3], [0xA9]])) (by decide)

/-- C7 amended: each read is decoded independently with no carry-over,
so per-read decoding agrees with decoding the concatenated bytes only
when every read is itself well-formed UTF-8 (no sequence split across a
read boundary). -/
theorem C7_amended_per_read_decode (reads : List (List Nat))
    (h : ∀ r ∈ reads, wellFormedUtf8 r = true) :
    (reads.map decodeUtf8).flatten = decodeUtf8 reads.flatten := by
  induction reads with
  | nil => rfl
  | cons r rs ih =>
    simp only [List.map_cons, List.flatten_cons]
    rw [ih (fun x hx => h x (List.mem_cons_of_mem r hx)),
      ← decodeUtf8_append_wf r rs.flatten (h r (List.mem_cons_self r rs))]

/-- Witness for the amended C7 at reads split between code points. -/
theorem C7_amended_per_read_decode_witness :
    (∀ r ∈ readsC7w, wellFormedUtf8 r = true)
    ∧ (readsC7w.map decodeUtf8).flatten = decodeUtf8 readsC7w.flatten := by
  have h : ∀ r ∈ readsC7w, wellFormedUtf8 r = true := by decide
  exact ⟨h, C7_amended_per_read_decode readsC7w h⟩
